import Mathlib

/-!
Verification of the Notion block parsing/rendering pipeline of the TechBlog
repository (src/api/blocks/block-parser.ts, src/api/blocks/block-renderer.tsx,
src/api/post-detail.ts, and the NotionPost metadata parser).

The TypeScript code operates on untyped (duck-typed) JSON-like values, so we
shallowly embed a JavaScript value universe `JsVal` together with the exact
member-access, optional-chaining, truthiness and `||`/`??` semantics the code
relies on.  Property access on `null`/`undefined` throws in JavaScript; we model
a thrown `TypeError` as `Except.error ()`.
-/

/-- A JavaScript runtime value as far as the parsing pipeline can observe it:
`null`, `undefined`, booleans, (integer) numbers, strings, arrays and plain
string-keyed objects. -/
inductive JsVal where
  | null
  | undefined
  | bool (b : Bool)
  | num (n : Int)
  | str (s : String)
  | arr (xs : List JsVal)
  | obj (fields : List (String × JsVal))

namespace JsVal

/-- JavaScript truthiness: `null`, `undefined`, `false`, `0` and `""` are
falsy; every array and object (even empty) is truthy. -/
def truthy : JsVal → Bool
  | .null => false
  | .undefined => false
  | .bool b => b
  | .num n => decide (n ≠ 0)
  | .str s => decide (s ≠ "")
  | .arr _ => true
  | .obj _ => true

/-- `a === null || a === undefined` (the values optional chaining guards). -/
def nullish : JsVal → Bool
  | .null => true
  | .undefined => true
  | _ => false

/-- Plain member access `v.k`: throws a TypeError when `v` is `null` or
`undefined`; yields the field value on objects (or `undefined` when the key is
absent); yields `undefined` for named fields of the remaining value shapes
(none of the accessed names collide with built-ins in the code under study). -/
def get : JsVal → String → Except Unit JsVal
  | .null, _ => .error ()
  | .undefined, _ => .error ()
  | .obj fields, k => .ok (((fields.lookup k).getD .undefined))
  | _, _ => .ok .undefined

/-- Optional-chained member access `v?.k`: `undefined` when `v` is nullish,
otherwise the same as plain access (which cannot throw on non-nullish `v`). -/
def optGet (v : JsVal) (k : String) : JsVal :=
  match v with
  | .null => .undefined
  | .undefined => .undefined
  | .obj fields => (fields.lookup k).getD .undefined
  | _ => .undefined

mutual

/-- The string `Array.prototype.join` produces for one element: `null` and
`undefined` join as the empty string, other values via their JavaScript string
conversion (nested arrays themselves join with commas). -/
def toJoinString : JsVal → String
  | .null => ""
  | .undefined => ""
  | .bool b => if b then "true" else "false"
  | .num n => toString n
  | .str s => s
  | .arr xs => joinComma xs
  | .obj _ => "[object Object]"

/-- `Array.prototype.join(",")`, the string conversion of a JavaScript array. -/
def joinComma : List JsVal → String
  | [] => ""
  | [x] => toJoinString x
  | x :: y :: xs => toJoinString x ++ "," ++ joinComma (y :: xs)

end

theorem get_eq_optGet_of_not_nullish (v : JsVal) (k : String)
    (h : v.nullish = false) : v.get k = .ok (v.optGet k) := by
  cases v <;> simp [nullish] at h ⊢ <;> rfl

theorem get_ok_not_nullish {v : JsVal} {k : String} {w : JsVal}
    (h : v.get k = .ok w) : v.nullish = false := by
  cases v <;> simp [get, nullish] at h ⊢

theorem not_nullish_of_truthy {v : JsVal} (h : v.truthy = true) :
    v.nullish = false := by
  cases v <;> simp [truthy, nullish] at h ⊢

theorem toJoinString_str (s : String) : toJoinString (.str s) = s := rfl

end JsVal

/-- JavaScript strict equality `v === "s"` against a string literal. -/
def JsVal.isStr (v : JsVal) (s : String) : Bool :=
  match v with
  | .str t => t == s
  | _ => false

/-- JavaScript `a || b`: `a` when truthy, otherwise `b`. -/
def jsOr (a b : JsVal) : JsVal := if a.truthy then a else b

/-- JavaScript `a ?? b`: `a` unless it is `null`/`undefined`, otherwise `b`. -/
def jsNullishOr (a b : JsVal) : JsVal := if a.nullish then b else a

/-! ## Rich text normalization (`NotionBlockParser.parseRichText`) -/

/-- The `annotations` record of a parsed rich-text span.  The TypeScript code
computes each field as `rt.annotations?.f || default`; since the source object
is untyped the resulting value can be any truthy JavaScript value, so the
fields are embedded as `JsVal`. -/
structure SpanAnnotations where
  bold : JsVal
  italic : JsVal
  strikethrough : JsVal
  underline : JsVal
  code : JsVal
  color : JsVal

/-- One parsed rich-text span (`ParsedRichText` in block-types).  `link` is the
value of `rt.text?.link?.url || undefined`. -/
structure ParsedRichText where
  content : JsVal
  link : JsVal
  annotations : SpanAnnotations

/-- The annotations produced when every flag falls back to its default. -/
def defaultAnnotations : SpanAnnotations :=
  { bold := .bool false
    italic := .bool false
    strikethrough := .bool false
    underline := .bool false
    code := .bool false
    color := .str "default" }

/-- The body of the `richTextArray.map` callback in `parseRichText`.  All the
plain accesses (`rt.plain_text`, `rt.text`, `rt.annotations`) throw exactly
when `rt` is `null` or `undefined`. -/
def parseRun (rt : JsVal) : Except Unit ParsedRichText := do
  let pt ← rt.get "plain_text"
  let txt ← rt.get "text"
  let ann ← rt.get "annotations"
  pure
    { content := jsOr pt (.str "")
      link := jsOr ((txt.optGet "link").optGet "url") .undefined
      annotations :=
        { bold := jsOr (ann.optGet "bold") (.bool false)
          italic := jsOr (ann.optGet "italic") (.bool false)
          strikethrough := jsOr (ann.optGet "strikethrough") (.bool false)
          underline := jsOr (ann.optGet "underline") (.bool false)
          code := jsOr (ann.optGet "code") (.bool false)
          color := jsOr (ann.optGet "color") (.str "default") } }

/-- `NotionBlockParser.parseRichText`: a non-array input short-circuits to the
empty list; an array is mapped element-wise through `parseRun` (and the map
throws as soon as one element does). -/
def parseRichText (richTextArray : JsVal) : Except Unit (List ParsedRichText) :=
  match richTextArray with
  | .arr xs => xs.mapM parseRun
  | _ => .ok []

/-! ## Block parsing (`NotionBlockParser.parseBlock` and friends) -/

/-- The icon sub-record of a parsed callout (`icon.type`, `icon.emoji`, and the
url derived from the icon's own type tag). -/
structure CalloutIcon where
  type : JsVal
  emoji : JsVal
  url : JsVal

/-- The tagged union of the 11 normalized block variants (`ParsedBlock` in
block-types).  Heading and list-item variants keep their discriminating type
string (`heading_1/2/3`, `bulleted_list_item`/`numbered_list_item`).  Fields
that the TypeScript code computes with `||` over untyped data are embedded as
`JsVal`; the code block's content is a genuine string (a `join` result). -/
inductive ParsedBlock where
  | paragraph (content : List ParsedRichText) (hasChildren : JsVal)
  | heading (type : String) (content : List ParsedRichText) (isToggleable : JsVal)
  | listItem (type : String) (content : List ParsedRichText) (hasChildren : JsVal)
  | quote (content : List ParsedRichText)
  | code (content : String) (language : JsVal) (caption : List ParsedRichText)
  | callout (content : List ParsedRichText) (icon : Option CalloutIcon) (color : JsVal)
  | divider
  | image (url : JsVal) (caption : List ParsedRichText)
  | bookmark (url : JsVal) (caption : List ParsedRichText)
  | toggle (content : List ParsedRichText) (hasChildren : JsVal)
  | toDo (content : List ParsedRichText) (checked : JsVal) (hasChildren : JsVal)

/-- `parseParagraph`: rich text from `block.paragraph?.rich_text || []`,
children flag from `block.has_children || false`. -/
def parseParagraph (block : JsVal) : Except Unit ParsedBlock := do
  let pd ← block.get "paragraph"
  let content ← parseRichText (jsOr (pd.optGet "rich_text") (.arr []))
  let hc ← block.get "has_children"
  pure (.paragraph content (jsOr hc (.bool false)))

/-- `parseHeading`: the heading payload lives under the field named by the
block's own type string (`block[type]`). -/
def parseHeading (block : JsVal) (type : String) : Except Unit ParsedBlock := do
  let hd ← block.get type
  let content ← parseRichText (jsOr (hd.optGet "rich_text") (.arr []))
  pure (.heading type content (jsOr (hd.optGet "is_toggleable") (.bool false)))

/-- `parseListItem`: payload under `block[type]`, children flag from
`block.has_children || false`. -/
def parseListItem (block : JsVal) (type : String) : Except Unit ParsedBlock := do
  let ld ← block.get type
  let content ← parseRichText (jsOr (ld.optGet "rich_text") (.arr []))
  let hc ← block.get "has_children"
  pure (.listItem type content (jsOr hc (.bool false)))

/-- `parseQuote`. -/
def parseQuote (block : JsVal) : Except Unit ParsedBlock := do
  let qd ← block.get "quote"
  let content ← parseRichText (jsOr (qd.optGet "rich_text") (.arr []))
  pure (.quote content)

/-- `parseCode`: the content string is
`(codeData?.rich_text || []).map(rt => rt.plain_text).join("")`; mapping over
a truthy non-array throws (`.map` is not a function), and each element access
`rt.plain_text` throws on a `null`/`undefined` element. -/
def parseCode (block : JsVal) : Except Unit ParsedBlock := do
  let codeData ← block.get "code"
  let plainTexts ←
    match jsOr (codeData.optGet "rich_text") (.arr []) with
    | .arr xs => xs.mapM (fun rt => rt.get "plain_text")
    | _ => .error ()
  let content := String.join (plainTexts.map JsVal.toJoinString)
  let caption ← parseRichText (jsOr (codeData.optGet "caption") (.arr []))
  pure (.code content (jsOr (codeData.optGet "language") (.str "plain text")) caption)

/-- `parseCallout`: the icon is built only when `calloutData?.icon` is truthy;
its url comes from the external or file sub-object depending on the icon's own
type tag. -/
def parseCallout (block : JsVal) : Except Unit ParsedBlock := do
  let calloutData ← block.get "callout"
  let iconData := calloutData.optGet "icon"
  let icon : Option CalloutIcon :=
    if iconData.truthy then
      some
        { type := iconData.optGet "type"
          emoji := iconData.optGet "emoji"
          url :=
            if (iconData.optGet "type").isStr "external" then
              (iconData.optGet "external").optGet "url"
            else
              (iconData.optGet "file").optGet "url" }
    else none
  let content ← parseRichText (jsOr (calloutData.optGet "rich_text") (.arr []))
  pure (.callout content icon (jsOr (calloutData.optGet "color") (.str "default")))

/-- `parseDivider`: carries no fields. -/
def parseDivider (_block : JsVal) : Except Unit ParsedBlock :=
  pure .divider

/-- The url `parseImage` derives from the image sub-object:
`imageData.type === "external" ? imageData.external?.url : imageData.file?.url`. -/
def imageUrl (imageData : JsVal) : JsVal :=
  if (imageData.optGet "type").isStr "external" then
    (imageData.optGet "external").optGet "url"
  else
    (imageData.optGet "file").optGet "url"

/-- `parseImage`: returns `none` when the image sub-object is falsy or when
the url derived from the type tag is falsy; otherwise an image block with that
url. -/
def parseImage (block : JsVal) : Except Unit (Option ParsedBlock) := do
  let imageData ← block.get "image"
  if !imageData.truthy then
    pure none
  else
    let url := imageUrl imageData
    if !url.truthy then
      pure none
    else
      let caption ← parseRichText (jsOr (imageData.optGet "caption") (.arr []))
      pure (some (.image url caption))

/-- `parseBookmark`: url from `block.bookmark?.url || ""`. -/
def parseBookmark (block : JsVal) : Except Unit ParsedBlock := do
  let bm ← block.get "bookmark"
  let caption ← parseRichText (jsOr (bm.optGet "caption") (.arr []))
  pure (.bookmark (jsOr (bm.optGet "url") (.str "")) caption)

/-- `parseToggle`. -/
def parseToggle (block : JsVal) : Except Unit ParsedBlock := do
  let td ← block.get "toggle"
  let content ← parseRichText (jsOr (td.optGet "rich_text") (.arr []))
  let hc ← block.get "has_children"
  pure (.toggle content (jsOr hc (.bool false)))

/-- `parseToDo`: checked from `block.to_do?.checked || false`. -/
def parseToDo (block : JsVal) : Except Unit ParsedBlock := do
  let td ← block.get "to_do"
  let content ← parseRichText (jsOr (td.optGet "rich_text") (.arr []))
  let hc ← block.get "has_children"
  pure (.toDo content (jsOr (td.optGet "checked") (.bool false)) (jsOr hc (.bool false)))

/-- `NotionBlockParser.parseBlock`: dispatch on `block.type`; every
unrecognized type yields `none` ("no result", not an error).  Among the
recognized types only `image` can itself yield `none`. -/
def parseBlock (block : JsVal) : Except Unit (Option ParsedBlock) := do
  let type ← block.get "type"
  if type.isStr "paragraph" then some <$> parseParagraph block
  else if type.isStr "heading_1" then some <$> parseHeading block "heading_1"
  else if type.isStr "heading_2" then some <$> parseHeading block "heading_2"
  else if type.isStr "heading_3" then some <$> parseHeading block "heading_3"
  else if type.isStr "bulleted_list_item" then some <$> parseListItem block "bulleted_list_item"
  else if type.isStr "numbered_list_item" then some <$> parseListItem block "numbered_list_item"
  else if type.isStr "quote" then some <$> parseQuote block
  else if type.isStr "code" then some <$> parseCode block
  else if type.isStr "callout" then some <$> parseCallout block
  else if type.isStr "divider" then some <$> parseDivider block
  else if type.isStr "image" then parseImage block
  else if type.isStr "bookmark" then some <$> parseBookmark block
  else if type.isStr "toggle" then some <$> parseToggle block
  else if type.isStr "to_do" then some <$> parseToDo block
  else pure none

/-- A parsed block paired with its external identifier and its (initially
empty, later fetched) children: `BlockWithMetadata` in block-types.  The
subtree makes this a nested inductive rather than a structure. -/
inductive BlockWithMetadata where
  | mk (id : JsVal) (block : ParsedBlock) (children : List BlockWithMetadata)

def BlockWithMetadata.id : BlockWithMetadata → JsVal
  | .mk i _ _ => i

def BlockWithMetadata.block : BlockWithMetadata → ParsedBlock
  | .mk _ b _ => b

def BlockWithMetadata.children : BlockWithMetadata → List BlockWithMetadata
  | .mk _ _ cs => cs

def BlockWithMetadata.setChildren : BlockWithMetadata → List BlockWithMetadata → BlockWithMetadata
  | .mk i b _, cs => .mk i b cs

/-- `NotionBlockParser.parseBlocks`: parse each record in order, skip the
`null` results, and pair each surviving block with the record's `id` and an
empty children list.  A thrown element error aborts the whole batch. -/
def parseBlocks : List JsVal → Except Unit (List BlockWithMetadata)
  | [] => pure []
  | block :: rest => do
    let parsedBlock ← parseBlock block
    match parsedBlock with
    | none => parseBlocks rest
    | some pb => do
      let i ← block.get "id"
      let tail ← parseBlocks rest
      pure (.mk i pb [] :: tail)

/-! ## Block tree fetching (`post-detail.ts`) -/

/-- The guard of the recursive expansion loop in `fetchBlocksRecursively`:
the block's type must be one of `paragraph`, `bulleted_list_item`,
`numbered_list_item`, `toggle`, `to_do`, and its `hasChildren` field must be
truthy. -/
def shouldExpand : ParsedBlock → Bool
  | .paragraph _ hc => hc.truthy
  | .listItem _ _ hc => hc.truthy
  | .toggle _ hc => hc.truthy
  | .toDo _ _ hc => hc.truthy
  | _ => false

/-- An external children-listing API: maps a block identifier to the raw
records of its first page of children, or to a thrown error. -/
def NotionApi : Type := JsVal → Except Unit (List JsVal)

/-- The `for (const block of blocks)` loop of `fetchBlocksRecursively`,
abstracted over the recursive fetch: replace the children of each expandable
block by a fetch below its id, leave the other blocks untouched.  An error in
any child fetch aborts the loop (and with it the enclosing fetch). -/
def expandWith (fetch : JsVal → Except Unit (List BlockWithMetadata)) :
    List BlockWithMetadata → Except Unit (List BlockWithMetadata)
  | [] => pure []
  | b :: rest =>
    if shouldExpand b.block then do
      let cs ← fetch b.id
      let rest' ← expandWith fetch rest
      pure (b.setChildren cs :: rest')
    else do
      let rest' ← expandWith fetch rest
      pure (b :: rest')

/-- `fetchBlocksRecursively`: list the children of `blockId`, parse them, and
re-fetch recursively below every children-capable block whose flag is truthy.
Fuel bounds the recursion depth (the real code would simply not terminate on a
cyclic response); running out of fuel is modelled as a failure. -/
def fetchBlocksRecursively (api : NotionApi) : Nat → JsVal → Except Unit (List BlockWithMetadata)
  | 0, _ => .error ()
  | fuel + 1, blockId => do
    let results ← api blockId
    let blocks ← parseBlocks results
    expandWith (fetchBlocksRecursively api fuel) blocks

/-- `getPageBlocks`: the top-level try/catch around the recursive fetch —
any error anywhere in the recursion yields the empty block list. -/
def getPageBlocks (api : NotionApi) (fuel : Nat) (pageId : JsVal) :
    List BlockWithMetadata :=
  match fetchBlocksRecursively api fuel pageId with
  | .ok blocks => blocks
  | .error _ => []

/-! ## Rich text rendering (`block-renderer.tsx`, `RichTextRenderer`) -/

/-- A markup node: a text leaf (React renders the raw value), or an element
with a tag, attributes and children. -/
inductive Markup where
  | text (v : JsVal)
  | elem (tag : String) (attrs : List (String × JsVal)) (children : List Markup)

/-- The body of the `content.map` callback in `RichTextRenderer`: wrap the
text in `strong`, `em`, `s`, `u`, `code` — in that application order, so the
wrapper applied first is innermost — whenever the matching annotation flag is
truthy, then wrap the styled result in an `a` element when `link` is truthy,
and finally in the keyed `span`. -/
def renderSpan (t : ParsedRichText) : Markup :=
  let e := Markup.text t.content
  let e := if t.annotations.bold.truthy then Markup.elem "strong" [] [e] else e
  let e := if t.annotations.italic.truthy then Markup.elem "em" [] [e] else e
  let e := if t.annotations.strikethrough.truthy then Markup.elem "s" [] [e] else e
  let e := if t.annotations.underline.truthy then Markup.elem "u" [] [e] else e
  let e :=
    if t.annotations.code.truthy then
      Markup.elem "code" [("className", .str "inline-code")] [e]
    else e
  let e :=
    if t.link.truthy then
      Markup.elem "a"
        [("href", t.link), ("target", .str "_blank"),
         ("rel", .str "noopener noreferrer")] [e]
    else e
  Markup.elem "span" [] [e]

/-- `RichTextRenderer`: one keyed span per parsed rich-text element. -/
def renderRichText (content : List ParsedRichText) : List Markup :=
  content.map renderSpan

/-! ## Post metadata (`NotionPost`, notion-parser) -/

/-- Optional-chained index access `v?.[0]`. -/
def JsVal.optIndexZero (v : JsVal) : JsVal :=
  match v with
  | .arr xs => xs.headD .undefined
  | _ => .undefined

/-- `NotionPost.getTitle`: `prop?.title?.[0]?.plain_text ?? ""`. -/
def getTitle (prop : JsVal) : JsVal :=
  jsNullishOr (((prop.optGet "title").optIndexZero).optGet "plain_text") (.str "")

/-- `NotionPost.getDate`: `prop?.date?.start ?? ""`. -/
def getDate (prop : JsVal) : JsVal :=
  jsNullishOr ((prop.optGet "date").optGet "start") (.str "")

/-- `NotionPost.getStatus`: `prop?.status?.name ?? ""`. -/
def getStatus (prop : JsVal) : JsVal :=
  jsNullishOr ((prop.optGet "status").optGet "name") (.str "")

/-- `NotionPost.getSeries`: `prop?.select?.name ?? null`. -/
def getSeries (prop : JsVal) : JsVal :=
  jsNullishOr ((prop.optGet "select").optGet "name") .null

/-- `NotionPost.getCategories`:
`prop?.multi_select?.map((item) => item.name) ?? []`.  A truthy non-array
`multi_select` throws (`.map` is not a function); a `null`/`undefined` element
throws inside the callback. -/
def getCategories (prop : JsVal) : Except Unit (List JsVal) :=
  match prop.optGet "multi_select" with
  | .arr xs => xs.mapM (fun item => item.get "name")
  | .null => pure []
  | .undefined => pure []
  | _ => .error ()

/-- `NotionPost.getCover`: `null` for a falsy `page.cover`; otherwise the url
of the file or external sub-object picked by `cover.type` — accessed with a
plain (non-optional) member chain, so a missing sub-object throws. -/
def getCover (page : JsVal) : Except Unit JsVal := do
  let cover ← page.get "cover"
  if !cover.truthy then
    pure .null
  else if (cover.optGet "type").isStr "file" then do
    let file := cover.optGet "file"
    file.get "url"
  else do
    let ext := cover.optGet "external"
    ext.get "url"

/-- The fields of a constructed `NotionPost`. -/
structure NotionPost where
  id : JsVal
  title : JsVal
  status : JsVal
  createdDate : JsVal
  series : JsVal
  categories : List JsVal
  thumbnail : JsVal

/-- The `NotionPost` constructor: reads `page.properties`, then each property
accessor (`props.title`, `props.status`, … are plain accesses on `props`),
and finally the cover.  It throws whenever one of the accesses or helpers
throws. -/
def mkNotionPost (page : JsVal) : Except Unit NotionPost := do
  let props ← page.get "properties"
  let i ← page.get "id"
  let titleProp ← props.get "title"
  let statusProp ← props.get "status"
  let dateProp ← props.get "created_date"
  let seriesProp ← props.get "series"
  let categoriesProp ← props.get "categories"
  let categories ← getCategories categoriesProp
  let thumbnail ← getCover page
  pure
    { id := i
      title := getTitle titleProp
      status := getStatus statusProp
      createdDate := getDate dateProp
      series := getSeries seriesProp
      categories := categories
      thumbnail := thumbnail }

/-! ## Helper lemmas -/

theorem except_bind_ok {α β : Type} (x : Except Unit α) (f : α → Except Unit β) (b : β) :
    x >>= f = .ok b ↔ ∃ a, x = .ok a ∧ f a = .ok b := by
  cases x <;> simp [Bind.bind, Except.bind]

theorem except_bind_error {α β : Type} (x : Except Unit α) (f : α → Except Unit β) :
    x >>= f = .error () ↔ x = .error () ∨ ∃ a, x = .ok a ∧ f a = .error () := by
  cases x with
  | error e => cases e; simp [Bind.bind, Except.bind]
  | ok a => simp [Bind.bind, Except.bind]

/-- Structurally recursive reference form of `List.mapM` in the `Except Unit`
monad, used to reason about the tail-recursive library implementation. -/
def mapME {α β : Type} (f : α → Except Unit β) : List α → Except Unit (List β)
  | [] => .ok []
  | a :: as => do
    let b ← f a
    let bs ← mapME f as
    pure (b :: bs)

theorem mapM_loop_eq {α β : Type} (f : α → Except Unit β) :
    ∀ (as : List α) (acc : List β),
      List.mapM.loop f as acc = (mapME f as).map (fun bs => acc.reverse ++ bs) := by
  intro as
  induction as with
  | nil => intro acc; simp [List.mapM.loop, mapME, Except.map, pure, Except.pure]
  | cons a as ih =>
    intro acc
    simp only [List.mapM.loop, mapME]
    cases h : f a with
    | error e => simp [h, Bind.bind, Except.bind, Except.map]
    | ok b =>
      simp only [h, Bind.bind, Except.bind, ih (b :: acc)]
      cases h2 : mapME f as with
      | error e => simp [Except.map]
      | ok bs => simp [Except.map, pure, Except.pure]

theorem list_mapM_eq_mapME {α β : Type} (f : α → Except Unit β) (xs : List α) :
    xs.mapM f = mapME f xs := by
  rw [List.mapM, mapM_loop_eq]
  cases mapME f xs <;> simp [Except.map]

theorem mapME_ok_iff {α β : Type} (f : α → Except Unit β) :
    ∀ (xs : List α) (ys : List β),
      mapME f xs = .ok ys ↔ List.Forall₂ (fun a b => f a = .ok b) xs ys := by
  intro xs
  induction xs with
  | nil =>
    intro ys
    constructor
    · intro h
      cases h
      exact List.Forall₂.nil
    · intro h
      cases h
      rfl
  | cons a as ih =>
    intro ys
    simp only [mapME]
    constructor
    · intro h
      rw [except_bind_ok] at h
      obtain ⟨b, hb, h⟩ := h
      rw [except_bind_ok] at h
      obtain ⟨bs, hbs, h⟩ := h
      simp only [pure, Except.pure, Except.ok.injEq] at h
      subst h
      exact List.Forall₂.cons hb ((ih bs).mp hbs)
    · intro h
      cases h with
      | cons hb hbs =>
        rw [except_bind_ok]
        refine ⟨_, hb, ?_⟩
        rw [except_bind_ok]
        exact ⟨_, (ih _).mpr hbs, rfl⟩

theorem mapME_total {α β : Type} (f : α → Except Unit β) (xs : List α)
    (h : ∀ a ∈ xs, ∃ b, f a = .ok b) : ∃ ys, mapME f xs = .ok ys := by
  induction xs with
  | nil => exact ⟨[], rfl⟩
  | cons a as ih =>
    obtain ⟨b, hb⟩ := h a (by simp)
    obtain ⟨bs, hbs⟩ := ih (fun a ha => h a (by simp [ha]))
    refine ⟨b :: bs, ?_⟩
    simp only [mapME]
    rw [except_bind_ok]
    refine ⟨b, hb, ?_⟩
    rw [except_bind_ok]
    exact ⟨bs, hbs, rfl⟩

/-- `parseRun` succeeds on every value that is not `null`/`undefined`, and its
result is determined field-by-field by `optGet` on the run. -/
theorem parseRun_ok_of_not_nullish (rt : JsVal) (h : rt.nullish = false) :
    parseRun rt = .ok
      { content := jsOr (rt.optGet "plain_text") (.str "")
        link := jsOr (((rt.optGet "text").optGet "link").optGet "url") .undefined
        annotations :=
          { bold := jsOr ((rt.optGet "annotations").optGet "bold") (.bool false)
            italic := jsOr ((rt.optGet "annotations").optGet "italic") (.bool false)
            strikethrough := jsOr ((rt.optGet "annotations").optGet "strikethrough") (.bool false)
            underline := jsOr ((rt.optGet "annotations").optGet "underline") (.bool false)
            code := jsOr ((rt.optGet "annotations").optGet "code") (.bool false)
            color := jsOr ((rt.optGet "annotations").optGet "color") (.str "default") } } := by
  unfold parseRun
  rw [JsVal.get_eq_optGet_of_not_nullish _ _ h, JsVal.get_eq_optGet_of_not_nullish _ _ h,
    JsVal.get_eq_optGet_of_not_nullish _ _ h]
  rfl

/-! ## C2: totality of the rich text normalizer -/

/-- C2 counterexample: `parseRichText` is not total — on the array `[null]`
the map callback evaluates `null.plain_text`, which throws a TypeError, so the
normalizer fails instead of producing a best-effort default span. -/
theorem parseRichText_throws_on_null_element :
    parseRichText (.arr [.null]) = .error () := rfl

/-- C2 amended: `parseRichText` never fails on any input that is not an
array (it returns the empty list), nor on any array all of whose elements are
non-`null`, non-`undefined` values; only an array containing a `null` or
`undefined` element makes it throw. -/
theorem parseRichText_total_unless_nullish_element (v : JsVal)
    (h : ∀ xs, v = JsVal.arr xs → ∀ x ∈ xs, x.nullish = false) :
    ∃ spans, parseRichText v = .ok spans := by
  cases v with
  | arr xs =>
    have htot : ∀ x ∈ xs, ∃ s, parseRun x = .ok s :=
      fun x hx => ⟨_, parseRun_ok_of_not_nullish x (h xs rfl x hx)⟩
    obtain ⟨ys, hys⟩ := mapME_total parseRun xs htot
    exact ⟨ys, by rw [parseRichText, list_mapM_eq_mapME]; exact hys⟩
  | null => exact ⟨[], rfl⟩
  | undefined => exact ⟨[], rfl⟩
  | bool b => exact ⟨[], rfl⟩
  | num n => exact ⟨[], rfl⟩
  | str s => exact ⟨[], rfl⟩
  | obj fields => exact ⟨[], rfl⟩

/-- Witness for the amended C2 at a concrete malformed-but-non-nullish array. -/
theorem parseRichText_total_unless_nullish_element_witness :
    ∃ spans, parseRichText (.arr [.obj [], .num 5]) = .ok spans :=
  parseRichText_total_unless_nullish_element (.arr [.obj [], .num 5]) (by
    intro xs hxs x hx
    injection hxs with h
    subst h
    simp only [List.mem_cons, List.not_mem_nil, or_false] at hx
    rcases hx with rfl | rfl <;> rfl)

/-! ## C5: one span per run, in order -/

/-- C5 counterexample: for the array input `[undefined]` the normalizer does
not return a sequence at all — it throws on the element access — so "output
length equals input length" fails for that array input. -/
theorem parseRichText_throws_on_undefined_element :
    parseRichText (.arr [.undefined]) = .error () := rfl

/-- C5 amended: whenever `parseRichText` returns on an array input (which it
does exactly when no element is `null`/`undefined`), the output has one span
per input run in the same order — `parseRun` relates the i-th input to the
i-th output — and in particular equal length; every non-array input yields the
empty sequence without error. -/
theorem parseRichText_one_span_per_run :
    (∀ (xs : List JsVal) (out : List ParsedRichText),
        parseRichText (.arr xs) = .ok out →
        out.length = xs.length ∧
          List.Forall₂ (fun rt s => parseRun rt = .ok s) xs out)
    ∧ (∀ v : JsVal, (∀ xs, v ≠ JsVal.arr xs) → parseRichText v = .ok []) := by
  constructor
  · intro xs out h
    have h' : mapME parseRun xs = .ok out := by
      rw [parseRichText, list_mapM_eq_mapME] at h
      exact h
    have hf := (mapME_ok_iff parseRun xs out).mp h'
    exact ⟨hf.length_eq.symm, hf⟩
  · intro v hv
    cases v with
    | arr xs => exact absurd rfl (hv xs)
    | null => rfl
    | undefined => rfl
    | bool b => rfl
    | num n => rfl
    | str s => rfl
    | obj fields => rfl

/-- Witness for C5 at a concrete two-run array. -/
theorem parseRichText_one_span_per_run_witness :
    ([{ content := JsVal.str "a", link := .undefined, annotations := defaultAnnotations },
      { content := JsVal.str "b", link := .undefined, annotations := defaultAnnotations }]
        : List ParsedRichText).length =
      ([JsVal.obj [("plain_text", .str "a")], JsVal.obj [("plain_text", .str "b")]]
        : List JsVal).length ∧
    List.Forall₂ (fun rt s => parseRun rt = .ok s)
      [JsVal.obj [("plain_text", .str "a")], JsVal.obj [("plain_text", .str "b")]]
      [{ content := JsVal.str "a", link := .undefined, annotations := defaultAnnotations },
       { content := JsVal.str "b", link := .undefined, annotations := defaultAnnotations }] :=
  parseRichText_one_span_per_run.1
    [.obj [("plain_text", .str "a")], .obj [("plain_text", .str "b")]]
    [{ content := .str "a", link := .undefined, annotations := defaultAnnotations },
     { content := .str "b", link := .undefined, annotations := defaultAnnotations }] rfl

/-! ## C9: independent annotation defaults -/

/-- C9: a run record without an `annotations` key still yields a complete
annotations record with every flag `false` and color `"default"`, and the
normalizer does not fail on it; moreover each annotation field is extracted
independently — it is a function of that single field of the `annotations`
object alone. -/
theorem parseRun_defaults_when_annotations_absent :
    (∀ fields : List (String × JsVal), fields.lookup "annotations" = none →
        ∃ span, parseRun (.obj fields) = .ok span ∧
          span.annotations = defaultAnnotations)
    ∧ (∀ (fields : List (String × JsVal)) (ann : JsVal),
        fields.lookup "annotations" = some ann →
        ∃ span, parseRun (.obj fields) = .ok span ∧
          span.annotations.bold = jsOr (ann.optGet "bold") (.bool false) ∧
          span.annotations.italic = jsOr (ann.optGet "italic") (.bool false) ∧
          span.annotations.strikethrough = jsOr (ann.optGet "strikethrough") (.bool false) ∧
          span.annotations.underline = jsOr (ann.optGet "underline") (.bool false) ∧
          span.annotations.code = jsOr (ann.optGet "code") (.bool false) ∧
          span.annotations.color = jsOr (ann.optGet "color") (.str "default")) := by
  constructor
  · intro fields h
    refine ⟨_, parseRun_ok_of_not_nullish (.obj fields) rfl, ?_⟩
    simp [JsVal.optGet, h, jsOr, JsVal.truthy, defaultAnnotations]
  · intro fields ann h
    refine ⟨_, parseRun_ok_of_not_nullish (.obj fields) rfl, ?_⟩
    simp [JsVal.optGet, h]

/-- Witness for C9 at a run with text but no annotations object. -/
theorem parseRun_defaults_when_annotations_absent_witness :
    ∃ span, parseRun (.obj [("plain_text", .str "hello")]) = .ok span ∧
      span.annotations = defaultAnnotations :=
  parseRun_defaults_when_annotations_absent.1 [("plain_text", .str "hello")] rfl

/-! ## C6: code block content concatenation -/

/-- C6: for every code block whose rich-text runs carry string `plain_text`
fields, the parsed content is the separator-free concatenation of those
strings in order, the language is `codeData?.language || "plain text"` (so it
defaults to `"plain text"` when absent), and the caption is the normalized
caption rich text. -/
theorem parseCode_concatenates_plain_text
    (block codeData : JsVal) (runs : List JsVal) (ss : List String)
    (caption : List ParsedRichText)
    (hcode : block.get "code" = .ok codeData)
    (hruns : jsOr (codeData.optGet "rich_text") (.arr []) = .arr runs)
    (hplain : List.Forall₂ (fun rt s => rt.get "plain_text" = Except.ok (JsVal.str s)) runs ss)
    (hcaption : parseRichText (jsOr (codeData.optGet "caption") (.arr [])) = .ok caption) :
    parseCode block = .ok (.code (String.join ss)
      (jsOr (codeData.optGet "language") (.str "plain text")) caption) := by
  have hm : runs.mapM (fun rt => rt.get "plain_text") = .ok (ss.map JsVal.str) := by
    rw [list_mapM_eq_mapME]
    exact (mapME_ok_iff _ _ _).mpr ((List.forall₂_map_right_iff).mpr hplain)
  have hjoin : ∀ l : List String, (l.map JsVal.str).map JsVal.toJoinString = l := by
    intro l
    induction l with
    | nil => rfl
    | cons a l ih => simp [JsVal.toJoinString_str, ih]
  unfold parseCode
  rw [hcode]
  simp only [Bind.bind, Except.bind]
  rw [hruns]
  simp only [hm, hcaption, hjoin ss, Bind.bind, Except.bind, pure, Except.pure]

/-- The concrete code block of the claim: three runs and no language field. -/
def demoCodeBlock : JsVal :=
  .obj [("type", .str "code"),
        ("code", .obj [("rich_text",
          .arr [.obj [("plain_text", .str "function hello() \x7b\n")],
                .obj [("plain_text", .str "  return 'world';\n")],
                .obj [("plain_text", .str "\x7d")]])])]

/-- Witness for C6: the claim's three runs concatenate exactly, and the
missing language defaults to `"plain text"`. -/
theorem parseCode_concatenates_plain_text_witness :
    parseCode demoCodeBlock =
      .ok (.code "function hello() \x7b\n  return 'world';\n\x7d" (.str "plain text") []) := by
  have h := parseCode_concatenates_plain_text demoCodeBlock
    (.obj [("rich_text",
      .arr [.obj [("plain_text", .str "function hello() \x7b\n")],
            .obj [("plain_text", .str "  return 'world';\n")],
            .obj [("plain_text", .str "\x7d")]])])
    [.obj [("plain_text", .str "function hello() \x7b\n")],
     .obj [("plain_text", .str "  return 'world';\n")],
     .obj [("plain_text", .str "\x7d")]]
    ["function hello() \x7b\n", "  return 'world';\n", "\x7d"] [] rfl rfl
    (List.Forall₂.cons rfl (List.Forall₂.cons rfl (List.Forall₂.cons rfl List.Forall₂.nil)))
    rfl
  simpa using h

/-! ## C7: image blocks without a resolvable url -/

/-- C7: given the image sub-object read from the record, `parseImage` returns
"no result" (an `ok none`, not an error) exactly when the sub-object is not
usable — falsy, e.g. missing — or the url selected by its type tag (external
url for type `"external"`, file url otherwise) is falsy; and every returned
image block carries exactly that url. -/
theorem parseImage_none_iff_unresolvable
    (block imageData : JsVal) (himg : block.get "image" = .ok imageData) :
    ((imageData.truthy = false ∨ (imageUrl imageData).truthy = false) →
        parseImage block = .ok none)
    ∧ (∀ r, parseImage block = .ok r →
        (r = none ↔ (imageData.truthy = false ∨ (imageUrl imageData).truthy = false)))
    ∧ (∀ img, parseImage block = .ok (some img) →
        ∃ caption, img = ParsedBlock.image (imageUrl imageData) caption) := by
  unfold parseImage
  rw [himg]
  simp only [Bind.bind, Except.bind]
  cases hd : imageData.truthy with
  | false =>
    simp [hd, pure, Except.pure]
  | true =>
    cases hu : (imageUrl imageData).truthy with
    | false => simp [hd, hu, pure, Except.pure]
    | true =>
      cases hc : parseRichText (jsOr (imageData.optGet "caption") (.arr [])) with
      | error e => simp [hd, hu, hc, pure, Except.pure]
      | ok caption => simp [hd, hu, hc, pure, Except.pure]

/-- Witness for C7: a record whose image sub-object is absent parses to
"no result". -/
theorem parseImage_none_iff_unresolvable_witness :
    parseImage (.obj [("type", .str "image")]) = .ok none :=
  (parseImage_none_iff_unresolvable (.obj [("type", .str "image")]) .undefined rfl).1
    (Or.inl rfl)

/-! ## C4: batch parsing drops unrecognized blocks and keeps order -/

/-- The stub `parseBlocks` builds for one raw record: the parsed block paired
with the record's `id` and no children, or nothing when the block parser
returns no result. -/
def blockStub (b : JsVal) : Option BlockWithMetadata :=
  match parseBlock b with
  | .ok (some p) => some (.mk (b.optGet "id") p [])
  | _ => none

/-- The 14 type strings (11 variants) the block parser recognizes. -/
def isRecognizedType (t : JsVal) : Bool :=
  t.isStr "paragraph" || t.isStr "heading_1" || t.isStr "heading_2" || t.isStr "heading_3" ||
  t.isStr "bulleted_list_item" || t.isStr "numbered_list_item" || t.isStr "quote" ||
  t.isStr "code" || t.isStr "callout" || t.isStr "divider" || t.isStr "image" ||
  t.isStr "bookmark" || t.isStr "toggle" || t.isStr "to_do"

theorem parseBlock_ok_not_nullish {b : JsVal} {v : Option ParsedBlock}
    (h : parseBlock b = .ok v) : b.nullish = false := by
  cases b with
  | null => simp [parseBlock, JsVal.get, Bind.bind, Except.bind] at h
  | undefined => simp [parseBlock, JsVal.get, Bind.bind, Except.bind] at h
  | bool x => rfl
  | num x => rfl
  | str x => rfl
  | arr x => rfl
  | obj x => rfl

theorem parseBlock_unrecognized {b t : JsVal}
    (ht : b.get "type" = .ok t) (hu : isRecognizedType t = false) :
    parseBlock b = .ok none := by
  unfold parseBlock
  rw [ht]
  simp only [Bind.bind, Except.bind]
  simp only [isRecognizedType, Bool.or_eq_false_iff] at hu
  obtain ⟨⟨⟨⟨⟨⟨⟨⟨⟨⟨⟨⟨⟨h1, h2⟩, h3⟩, h4⟩, h5⟩, h6⟩, h7⟩, h8⟩, h9⟩, h10⟩, h11⟩, h12⟩, h13⟩, h14⟩ := hu
  simp only [h1, h2, h3, h4, h5, h6, h7, h8, h9, h10, h11, h12, h13, h14,
    Bool.false_eq_true, if_false]
  rfl

theorem parseBlocks_ok_eq :
    ∀ (blocks : List JsVal) (out : List BlockWithMetadata),
      parseBlocks blocks = .ok out → out = blocks.filterMap blockStub := by
  intro blocks
  induction blocks with
  | nil =>
    intro out h
    cases h
    rfl
  | cons b rest ih =>
    intro out h
    unfold parseBlocks at h
    rw [except_bind_ok] at h
    obtain ⟨pb, hpb, h⟩ := h
    cases pb with
    | none =>
      rw [List.filterMap_cons]
      simp only [blockStub, hpb]
      exact ih out h
    | some p =>
      rw [except_bind_ok] at h
      obtain ⟨i, hi, h⟩ := h
      rw [except_bind_ok] at h
      obtain ⟨tail, htail, h⟩ := h
      simp only [pure, Except.pure, Except.ok.injEq] at h
      subst h
      have hnn : b.nullish = false := parseBlock_ok_not_nullish hpb
      have : i = b.optGet "id" := by
        rw [JsVal.get_eq_optGet_of_not_nullish b "id" hnn] at hi
        cases hi
        rfl
      subst this
      rw [List.filterMap_cons]
      simp only [blockStub, hpb]
      rw [ih tail htail]

/-- C4: whenever batch parsing returns, the result is exactly the in-order
sequence of stubs of the surviving records — each pairing the parsed block
with that record's `id` and an empty children list — with every record whose
block parse yields "no result" dropped without a gap (so the output can be
shorter than the input); and every record whose `type` is not one of the
recognized type strings yields "no result", not an error. -/
theorem parseBlocks_one_stub_per_surviving_record :
    (∀ (blocks : List JsVal) (out : List BlockWithMetadata),
        parseBlocks blocks = .ok out → out = blocks.filterMap blockStub)
    ∧ (∀ (b t : JsVal), b.get "type" = .ok t → isRecognizedType t = false →
        parseBlock b = .ok none) :=
  ⟨parseBlocks_ok_eq, fun _ _ ht hu => parseBlock_unrecognized ht hu⟩

/-- Witness for C4: a paragraph, an unsupported record and a divider parse to
two stubs in order, and the unsupported record parses to "no result". -/
theorem parseBlocks_one_stub_per_surviving_record_witness :
    ([.mk (.str "1") (.paragraph [] (.bool false)) [],
      .mk (.str "3") .divider []] : List BlockWithMetadata) =
      ([.obj [("id", .str "1"), ("type", .str "paragraph")],
        .obj [("id", .str "2"), ("type", .str "unsupported_type")],
        .obj [("id", .str "3"), ("type", .str "divider")]] : List JsVal).filterMap blockStub
    ∧ parseBlock (.obj [("id", .str "2"), ("type", .str "unsupported_type")]) = .ok none :=
  ⟨parseBlocks_one_stub_per_surviving_record.1
      [.obj [("id", .str "1"), ("type", .str "paragraph")],
       .obj [("id", .str "2"), ("type", .str "unsupported_type")],
       .obj [("id", .str "3"), ("type", .str "divider")]]
      [.mk (.str "1") (.paragraph [] (.bool false)) [],
       .mk (.str "3") .divider []] rfl,
    parseBlocks_one_stub_per_surviving_record.2
      (.obj [("id", .str "2"), ("type", .str "unsupported_type")])
      (.str "unsupported_type") rfl rfl⟩

/-! ## C3: only the four children-capable variants are expanded -/

mutual

/-- Tree invariant: a node keeps an empty children list unless its variant is
children-capable (paragraph, list item, toggle, to-do) with a truthy children
flag, and the same holds below every child. -/
def nodeOk : BlockWithMetadata → Bool
  | .mk _ blk children => (shouldExpand blk || children.isEmpty) && nodesOk children

/-- `nodeOk` for every tree in a forest. -/
def nodesOk : List BlockWithMetadata → Bool
  | [] => true
  | b :: rest => nodeOk b && nodesOk rest

end

theorem blockStub_children_nil {b : JsVal} {stub : BlockWithMetadata}
    (h : blockStub b = some stub) : stub.children = [] := by
  unfold blockStub at h
  split at h
  · cases h
    rfl
  · cases h

theorem parseBlocks_children_nil {blocks : List JsVal} {out : List BlockWithMetadata}
    (h : parseBlocks blocks = .ok out) : ∀ x ∈ out, x.children = [] := by
  intro x hx
  rw [parseBlocks_ok_eq blocks out h] at hx
  obtain ⟨b, _, hb⟩ := List.mem_filterMap.mp hx
  exact blockStub_children_nil hb

theorem expandWith_nodesOk (f : JsVal → Except Unit (List BlockWithMetadata))
    (hf : ∀ i bs, f i = .ok bs → nodesOk bs = true) :
    ∀ (stubs out : List BlockWithMetadata), (∀ x ∈ stubs, x.children = []) →
      expandWith f stubs = .ok out → nodesOk out = true := by
  intro stubs
  induction stubs with
  | nil =>
    intro out _ h
    cases h
    rfl
  | cons b rest ih =>
    intro out hchildren h
    unfold expandWith at h
    by_cases hse : shouldExpand b.block = true
    · rw [if_pos hse, except_bind_ok] at h
      obtain ⟨cs, hcs, h⟩ := h
      rw [except_bind_ok] at h
      obtain ⟨rest', hrest', h⟩ := h
      simp only [pure, Except.pure, Except.ok.injEq] at h
      subst h
      have hrest'ok : nodesOk rest' = true :=
        ih rest' (fun x hx => hchildren x (by simp [hx])) hrest'
      have hb'ok : nodeOk (b.setChildren cs) = true := by
        cases b with
        | mk i blk ch =>
          simp only [BlockWithMetadata.setChildren, nodeOk]
          simp only [BlockWithMetadata.block] at hse
          rw [hse]
          simp [hf _ _ hcs]
      simp [nodesOk, hb'ok, hrest'ok]
    · rw [if_neg hse, except_bind_ok] at h
      obtain ⟨rest', hrest', h⟩ := h
      simp only [pure, Except.pure, Except.ok.injEq] at h
      subst h
      have hrest'ok : nodesOk rest' = true :=
        ih rest' (fun x hx => hchildren x (by simp [hx])) hrest'
      have hch : b.children = [] := hchildren b (by simp)
      have hbok : nodeOk b = true := by
        cases b with
        | mk i blk ch =>
          simp only [BlockWithMetadata.children] at hch
          subst hch
          simp [nodeOk, nodesOk]
      simp [nodesOk, hbok, hrest'ok]

/-- C3: every block forest the recursive fetcher returns satisfies the
leaf-only invariant — a node whose variant is not among the four
children-capable ones (paragraph, bulleted/numbered list item, toggle, to-do),
or whose children flag is not truthy, has an empty children list, at every
depth; and the invariant indeed forces empty children on every non-capable
node. -/
theorem fetchBlocksRecursively_leaf_only :
    (∀ (api : NotionApi) (fuel : Nat) (blockId : JsVal) (blocks : List BlockWithMetadata),
        fetchBlocksRecursively api fuel blockId = .ok blocks → nodesOk blocks = true)
    ∧ (∀ b : BlockWithMetadata, nodeOk b = true → shouldExpand b.block = false →
        b.children = []) := by
  constructor
  · intro api fuel
    induction fuel with
    | zero =>
      intro blockId blocks h
      cases h
    | succ fuel ih =>
      intro blockId blocks h
      unfold fetchBlocksRecursively at h
      rw [except_bind_ok] at h
      obtain ⟨results, _, h⟩ := h
      rw [except_bind_ok] at h
      obtain ⟨stubs, hstubs, h⟩ := h
      exact expandWith_nodesOk _ ih stubs blocks (parseBlocks_children_nil hstubs) h
  · intro b hok hse
    cases b with
    | mk i blk ch =>
      simp only [BlockWithMetadata.block] at hse
      simp only [nodeOk, hse, Bool.false_or, Bool.and_eq_true, List.isEmpty_iff] at hok
      exact hok.1

/-- A concrete children-listing API for the C3 witness: the root has a
heading (which claims `has_children`) and a paragraph with a real child. -/
def c3api : NotionApi := fun bid =>
  if bid.isStr "root" then
    .ok [.obj [("id", .str "h1"), ("type", .str "heading_1"), ("has_children", .bool true)],
         .obj [("id", .str "p1"), ("type", .str "paragraph"), ("has_children", .bool true)]]
  else if bid.isStr "p1" then
    .ok [.obj [("id", .str "d1"), ("type", .str "divider")]]
  else .ok []

/-- Witness for C3: the fetched tree keeps the heading childless despite its
`has_children` flag, expands only the paragraph, and satisfies the invariant;
and a concrete invariant-satisfying non-capable node has empty children. -/
theorem fetchBlocksRecursively_leaf_only_witness :
    nodesOk
      [.mk (.str "h1") (.heading "heading_1" [] (.bool false)) [],
       .mk (.str "p1") (.paragraph [] (.bool true)) [.mk (.str "d1") .divider []]] = true ∧
    (BlockWithMetadata.mk (.str "h1") (.heading "heading_1" [] (.bool false)) []).children
      = [] :=
  ⟨fetchBlocksRecursively_leaf_only.1 c3api 3 (.str "root")
      [.mk (.str "h1") (.heading "heading_1" [] (.bool false)) [],
       .mk (.str "p1") (.paragraph [] (.bool true)) [.mk (.str "d1") .divider []]] rfl,
    fetchBlocksRecursively_leaf_only.2
      (.mk (.str "h1") (.heading "heading_1" [] (.bool false)) []) rfl rfl⟩

/-! ## C8: the top-level fetch catches every error as an empty list -/

/-- C8: whenever the recursive fetch fails — an external call throwing at any
recursion level propagates out of the recursion as an error — `getPageBlocks`
returns the empty block list; and in general its result is either empty or the
complete successfully fetched forest, never a partial tree (being a total
function, it lets no exception escape to the caller). -/
theorem getPageBlocks_empty_on_failure :
    (∀ (api : NotionApi) (fuel : Nat) (pageId : JsVal),
        fetchBlocksRecursively api fuel pageId = .error () →
        getPageBlocks api fuel pageId = [])
    ∧ (∀ (api : NotionApi) (fuel : Nat) (pageId : JsVal),
        getPageBlocks api fuel pageId = [] ∨
          fetchBlocksRecursively api fuel pageId = .ok (getPageBlocks api fuel pageId)) := by
  constructor
  · intro api fuel pageId h
    unfold getPageBlocks
    rw [h]
  · intro api fuel pageId
    unfold getPageBlocks
    cases h : fetchBlocksRecursively api fuel pageId with
    | error e => exact Or.inl rfl
    | ok bs => exact Or.inr rfl

/-- A children-listing API for the C8 witness: the root lists one paragraph
with children, and the nested call for that paragraph throws. -/
def c8api : NotionApi := fun bid =>
  if bid.isStr "root" then
    .ok [.obj [("id", .str "p1"), ("type", .str "paragraph"), ("has_children", .bool true)]]
  else .error ()

/-- Witness for C8: a failure one recursion level down yields the empty list
at the top, not a partial tree with the root paragraph. -/
theorem getPageBlocks_empty_on_failure_witness :
    getPageBlocks c8api 5 (.str "root") = [] :=
  getPageBlocks_empty_on_failure.1 c8api 5 (.str "root") rfl

/-! ## C1: nesting order of the rich text style wrappers -/

/-- C1 counterexample: on a span with `bold` and `italic` both true the
renderer nests the bold element inside the italic element (`em` outermost),
not the italic inside the bold as the claimed order (strikethrough, underline,
italic, bold innermost-to-outermost) would produce. -/
theorem renderSpan_bold_inside_italic :
    renderSpan
        { content := .str "x", link := .undefined,
          annotations :=
            { bold := .bool true, italic := .bool true, strikethrough := .bool false,
              underline := .bool false, code := .bool false, color := .str "default" } } =
      .elem "span" [] [.elem "em" [] [.elem "strong" [] [.text (.str "x")]]] ∧
    renderSpan
        { content := .str "x", link := .undefined,
          annotations :=
            { bold := .bool true, italic := .bool true, strikethrough := .bool false,
              underline := .bool false, code := .bool false, color := .str "default" } } ≠
      .elem "span" [] [.elem "strong" [] [.elem "em" [] [.text (.str "x")]]] := by
  constructor
  · rfl
  · intro h
    have h' : Markup.elem "span" [] [.elem "em" [] [.elem "strong" [] [.text (.str "x")]]] =
        Markup.elem "span" [] [.elem "strong" [] [.elem "em" [] [.text (.str "x")]]] := h
    injection h' with ht ha hc
    injection hc with hh _
    injection hh with htag _ _
    exact absurd htag (by decide)

/-- C1 amended: the renderer applies the style wrappers in the fixed nesting
order bold, italic, strikethrough, underline, inline-code from innermost to
outermost (italic wraps bold, strikethrough wraps italic, underline wraps
strikethrough, inline-code is the outermost style wrapper), and when a link is
truthy the entire styled result is wrapped in a hyperlink to that link. -/
theorem renderSpan_nesting_order (t : ParsedRichText)
    (hb : t.annotations.bold.truthy = true)
    (hi : t.annotations.italic.truthy = true)
    (hs : t.annotations.strikethrough.truthy = true)
    (hu : t.annotations.underline.truthy = true)
    (hc : t.annotations.code.truthy = true)
    (hl : t.link.truthy = true) :
    renderSpan t = .elem "span" []
      [.elem "a"
        [("href", t.link), ("target", .str "_blank"), ("rel", .str "noopener noreferrer")]
        [.elem "code" [("className", .str "inline-code")]
          [.elem "u" [] [.elem "s" [] [.elem "em" [] [.elem "strong" [] [.text t.content]]]]]]] := by
  unfold renderSpan
  simp only [hb, hi, hs, hu, hc, hl, if_true]

/-- Witness for the amended C1 at a span with every flag and a link set. -/
theorem renderSpan_nesting_order_witness :
    renderSpan
        { content := .str "x", link := .str "https://example.com",
          annotations :=
            { bold := .bool true, italic := .bool true, strikethrough := .bool true,
              underline := .bool true, code := .bool true, color := .str "default" } } =
      .elem "span" []
        [.elem "a"
          [("href", .str "https://example.com"), ("target", .str "_blank"),
           ("rel", .str "noopener noreferrer")]
          [.elem "code" [("className", .str "inline-code")]
            [.elem "u" [] [.elem "s" []
              [.elem "em" [] [.elem "strong" [] [.text (.str "x")]]]]]]] :=
  renderSpan_nesting_order
    { content := .str "x", link := .str "https://example.com",
      annotations :=
        { bold := .bool true, italic := .bool true, strikethrough := .bool true,
          underline := .bool true, code := .bool true, color := .str "default" } }
    rfl rfl rfl rfl rfl rfl

/-! ## C10: cover extraction is not total over malformed covers -/

theorem jsval_get_error_of_nullish {v : JsVal} (k : String) (h : v.nullish = true) :
    v.get k = .error () := by
  cases v with
  | null => rfl
  | undefined => rfl
  | bool b => simp [JsVal.nullish] at h
  | num n => simp [JsVal.nullish] at h
  | str s => simp [JsVal.nullish] at h
  | arr xs => simp [JsVal.nullish] at h
  | obj fields => simp [JsVal.nullish] at h

theorem mkNotionPost_ok_cover_ok {page : JsVal} {post : NotionPost}
    (h : mkNotionPost page = .ok post) : ∃ v, getCover page = .ok v := by
  unfold mkNotionPost at h
  rw [except_bind_ok] at h; obtain ⟨props, _, h⟩ := h
  rw [except_bind_ok] at h; obtain ⟨i, _, h⟩ := h
  rw [except_bind_ok] at h; obtain ⟨titleProp, _, h⟩ := h
  rw [except_bind_ok] at h; obtain ⟨statusProp, _, h⟩ := h
  rw [except_bind_ok] at h; obtain ⟨dateProp, _, h⟩ := h
  rw [except_bind_ok] at h; obtain ⟨seriesProp, _, h⟩ := h
  rw [except_bind_ok] at h; obtain ⟨categoriesProp, _, h⟩ := h
  rw [except_bind_ok] at h; obtain ⟨categories, _, h⟩ := h
  rw [except_bind_ok] at h; obtain ⟨thumbnail, hthumb, _⟩ := h
  exact ⟨thumbnail, hthumb⟩

/-- C10: cover extraction is not total over malformed covers.  For every page
whose `cover` value is truthy but whose matching sub-object is nullish —
type tag `"file"` with no file object, or any other type tag with no external
object — `getCover` throws (and then so does the whole `NotionPost`
construction, instead of defaulting the thumbnail to null); the null default
is produced when the `cover` field is absent or null. -/
theorem getCover_throws_on_missing_subobject :
    (∀ (page cover : JsVal), page.get "cover" = .ok cover → cover.truthy = true →
        (((cover.optGet "type").isStr "file" = true ∧ (cover.optGet "file").nullish = true) ∨
         ((cover.optGet "type").isStr "file" = false ∧ (cover.optGet "external").nullish = true)) →
        getCover page = .error ())
    ∧ (∀ (page cover : JsVal), page.get "cover" = .ok cover → cover.nullish = true →
        getCover page = .ok .null)
    ∧ (∀ page : JsVal, getCover page = .error () → mkNotionPost page = .error ()) := by
  refine ⟨?_, ?_, ?_⟩
  · intro page cover hc htruthy hmiss
    unfold getCover
    rw [hc]
    simp only [Bind.bind, Except.bind, htruthy, Bool.not_true, if_false]
    rcases hmiss with ⟨hfile, hnull⟩ | ⟨hnotfile, hnull⟩
    · simp only [hfile, if_true]
      exact jsval_get_error_of_nullish "url" hnull
    · simp only [hnotfile, Bool.false_eq_true, if_false]
      exact jsval_get_error_of_nullish "url" hnull
  · intro page cover hc hnullish
    have htruthy : cover.truthy = false := by
      cases cover <;> simp [JsVal.nullish, JsVal.truthy] at hnullish ⊢
    unfold getCover
    rw [hc]
    simp only [Bind.bind, Except.bind, htruthy, Bool.not_false, if_true]
    rfl
  · intro page hcover
    cases hm : mkNotionPost page with
    | error e => cases e; rfl
    | ok post =>
      obtain ⟨v, hv⟩ := mkNotionPost_ok_cover_ok hm
      rw [hcover] at hv
      cases hv

/-- Witness for C10: a page with a `"file"`-typed cover but no file sub-object
makes the whole construction throw, while a null cover defaults to null. -/
theorem getCover_throws_on_missing_subobject_witness :
    mkNotionPost (.obj [("properties", .obj []), ("id", .str "pg"),
        ("cover", .obj [("type", .str "file")])]) = .error () ∧
    getCover (.obj [("cover", .null)]) = .ok .null :=
  ⟨getCover_throws_on_missing_subobject.2.2
      (.obj [("properties", .obj []), ("id", .str "pg"),
        ("cover", .obj [("type", .str "file")])])
      (getCover_throws_on_missing_subobject.1
        (.obj [("properties", .obj []), ("id", .str "pg"),
          ("cover", .obj [("type", .str "file")])])
        (.obj [("type", .str "file")]) rfl rfl (Or.inl ⟨rfl, rfl⟩)),
    getCover_throws_on_missing_subobject.2.1 (.obj [("cover", .null)]) .null rfl rfl⟩
